import Mathlib

/-!
Verification development for a single-image YOLOv10 object-detection pipeline
(`src/main.cpp`). The program loads an ONNX model, preprocesses an image
(resize to the model's fixed 640×640 input, scale pixel values by 1/255,
reorder to channel-major planes), runs one forward pass, decodes the flat
output buffer as stride-6 records `(left, top, right, bottom, confidence,
class id)`, filters by a confidence threshold, rescales the kept boxes to
original-image space, draws them, and writes `result.jpg`.

Floats are modelled as exact rationals (`Rat`); `static_cast<int>` on a
float, which truncates toward zero, is modelled by `truncRat`. The unchecked
`std::vector::operator[]` access `CLASS_NAMES[class_id]`, which is undefined
behaviour when `class_id` is outside `[0, 80)`, is modelled by an `Option`
lookup where `none` marks the out-of-bounds access; a run that performs such
an access yields `none` overall.
-/

set_option allowUnsafeReducibility true

attribute [semireducible] Rat.mul Rat.div Rat.sub Rat.add Rat.neg Rat.inv

namespace Yolo

/-- The 80-entry COCO class-name table (`CLASS_NAMES` in `main.cpp`). -/
def CLASS_NAMES : List String := [
  "person", "bicycle", "car", "motorcycle", "airplane", "bus", "train", "truck", "boat", "traffic light",
  "fire hydrant", "stop sign", "parking meter", "bench", "bird", "cat", "dog", "horse", "sheep", "cow",
  "elephant", "bear", "zebra", "giraffe", "backpack", "umbrella", "handbag", "tie", "suitcase", "frisbee",
  "skis", "snowboard", "sports ball", "kite", "baseball bat", "baseball glove", "skateboard", "surfboard",
  "tennis racket", "bottle", "wine glass", "cup", "fork", "knife", "spoon", "bowl", "banana", "apple",
  "sandwich", "orange", "broccoli", "carrot", "hot dog", "pizza", "donut", "cake", "chair", "couch",
  "potted plant", "bed", "dining table", "toilet", "tv", "laptop", "mouse", "remote", "keyboard",
  "cell phone", "microwave", "oven", "toaster", "sink", "refrigerator", "book", "clock", "vase",
  "scissors", "teddy bear", "hair drier", "toothbrush"]

/-- C++ `static_cast<int>` applied to a floating value: truncation toward
zero, modelled on exact rationals (`-(|num| / den)` for negative values,
`num / den` otherwise, with `Nat` floor division on the magnitude). -/
def truncRat (q : Rat) : Int :=
  if 0 ≤ q.num then (q.num.toNat / q.den : Nat) else -((-q.num).toNat / q.den : Nat)

/-- `cv::Rect` as used by the program: integer x, y, width, height. -/
structure Rect where
  x : Int
  y : Int
  width : Int
  height : Int
deriving Repr, DecidableEq

/-- The `Detection` struct of `main.cpp`. -/
structure Detection where
  confidence : Rat
  bbox : Rect
  class_id : Int
  class_name : String
deriving Repr, DecidableEq

/-- The access `CLASS_NAMES[class_id]` on a `std::vector<std::string>` with an
`int` index: in range it returns the table entry; out of range (negative or
`≥ 80`) it is an unchecked out-of-bounds read (undefined behaviour), modelled
as `none`. -/
def classLookup (i : Int) : Option String :=
  if 0 ≤ i then CLASS_NAMES[i.toNat]? else none

/-- `filterDetections` from `main.cpp`: walk the raw buffer in stride-6
records (`num_detections = results.size() / 6`, so a trailing remainder of
fewer than 6 floats is ignored); for each record with
`confidence >= confidence_threshold` rescale the box to original-image space
with truncating casts and push a `Detection` whose name is
`CLASS_NAMES[class_id]`. A `none` result marks the undefined out-of-bounds
name access. -/
def filterDetections (confidence_threshold : Rat)
    (img_width img_height orig_width orig_height : Int) :
    List Rat → Option (List Detection)
  | left :: top :: right :: bottom :: confidence :: clsv :: rest =>
    let class_id : Int := truncRat clsv
    if confidence_threshold ≤ confidence then
      let x := truncRat (left * orig_width / img_width)
      let y := truncRat (top * orig_height / img_height)
      let width := truncRat ((right - left) * orig_width / img_width)
      let height := truncRat ((bottom - top) * orig_height / img_height)
      match classLookup class_id with
      | some nm =>
        match filterDetections confidence_threshold img_width img_height
            orig_width orig_height rest with
        | some ds => some (⟨confidence, ⟨x, y, width, height⟩, class_id, nm⟩ :: ds)
        | none => none
      | none => none
    else
      filterDetections confidence_threshold img_width img_height
        orig_width orig_height rest
  | _ => some []

/-- A raw record: 6 consecutive floats
`(left, top, right, bottom, confidence, class id)`. -/
abbrev Record := Rat × Rat × Rat × Rat × Rat × Rat

/-- Partition of the raw buffer into its `results.size() / 6` stride-6
records; the trailing `size % 6` floats belong to no record. -/
def chunks6 : List Rat → List Record
  | a :: b :: c :: d :: e :: f :: rest => (a, b, c, d, e, f) :: chunks6 rest
  | _ => []

/-- Confidence field of a record (`results[i*6 + 4]`). -/
def recConf (r : Record) : Rat := r.2.2.2.2.1

/-- The loop body of `filterDetections` on one kept record: rescale the box
and resolve the class name. -/
def mkDetection (img_width img_height orig_width orig_height : Int)
    (r : Record) : Option Detection :=
  match classLookup (truncRat r.2.2.2.2.2) with
  | some nm =>
    some ⟨recConf r,
      ⟨truncRat (r.1 * orig_width / img_width),
       truncRat (r.2.1 * orig_height / img_height),
       truncRat ((r.2.2.1 - r.1) * orig_width / img_width),
       truncRat ((r.2.2.2.1 - r.2.1) * orig_height / img_height)⟩,
      truncRat r.2.2.2.2.2, nm⟩
  | none => none

/-- Element-wise image of a record list under `mkDetection`, in order;
`none` as soon as one record's class lookup is out of bounds. -/
def detOfRecords (img_width img_height orig_width orig_height : Int) :
    List Record → Option (List Detection)
  | [] => some []
  | r :: rs =>
    match mkDetection img_width img_height orig_width orig_height r,
        detOfRecords img_width img_height orig_width orig_height rs with
    | some d, some ds => some (d :: ds)
    | _, _ => none

/-- Pixel normalization step of `preprocessImage`:
`resized_image.convertTo(resized_image, CV_32F, 1.0 / 255)` scales an 8-bit
channel value into `[0, 1]`. -/
def normalizePixel (v : Nat) : Rat := (v : Rat) / 255

/-- One channel plane after `cv::split`: the `H*W` floats of channel `c` of
the resized image in row-major order (`channels[c].data` is copied as a flat
buffer, pixel `i` holding row `i / W`, column `i % W`). -/
def channelPlane (H W : Nat) (img : Nat → Nat → Fin 3 → Nat) (c : Fin 3) : List Rat :=
  (List.range (H * W)).map fun i => normalizePixel (img (i / W) (i % W) c)

/-- The pure tensor-assembly part of `preprocessImage` in `main.cpp`, applied
to the already-resized image (`cv::imread` and `cv::resize` are external
library calls; `img y x c` is channel `c` of the resized pixel at row `y`,
column `x`): normalize by 1/255, split into 3 planes, and concatenate the
planes in channel-major order (all of channel 0, then 1, then 2). -/
def preprocessImage (H W : Nat) (img : Nat → Nat → Fin 3 → Nat) : List Rat :=
  channelPlane H W img 0 ++ channelPlane H W img 1 ++ channelPlane H W img 2

/-- The rendering loop of `main`: each detection is drawn onto the image in
turn (`cv::rectangle`, `cv::putText`, ... are external library calls,
abstracted as the single per-detection mutation `drawOne`). -/
def render {Img : Type} (drawOne : Img → Detection → Img)
    (image : Img) (detections : List Detection) : Img :=
  detections.foldl drawOne image

/-- The fixed model input shape `{1, 3, 640, 640}` hard-coded in `main`. -/
def input_shape : List Int := [1, 3, 640, 640]

/-- The fixed confidence threshold `0.5` hard-coded in `main`. -/
def confidence_threshold : Rat := 1/2

/-- Outcome of one process run of `main`. -/
inductive RunOutcome (Img : Type) where
  /-- `argc != 3`: usage is printed to standard error, exit status 1. -/
  | usage : RunOutcome Img
  /-- A thrown exception was caught: message to standard error, exit status 1. -/
  | error : RunOutcome Img
  /-- The unchecked out-of-bounds `CLASS_NAMES[class_id]` access was reached:
  undefined behaviour, no defined exit status. -/
  | undef : RunOutcome Img
  /-- Normal completion, exit status 0: the filtered detections were printed
  and the annotated image was written to `result.jpg`. -/
  | success : List Detection → Img → RunOutcome Img
deriving DecidableEq

/-- Process exit status of a run outcome; `none` for the undefined-behaviour
outcome, whose exit status the C++ standard does not define. -/
def exitCode {Img : Type} : RunOutcome Img → Option Nat
  | .usage => some 1
  | .error => some 1
  | .undef => none
  | .success _ _ => some 0

/-- The entry point `main` of `main.cpp`, with its external dependencies
abstracted: `argc` is the argument count; `modelLoads` tells whether
`Ort::Session` construction succeeds; `image` is the decode result of the
image path (`none` when `cv::imread` yields an empty matrix, otherwise the
decoded image with its original width and height — both `imread` calls in
`main` read the same file and are modelled as returning the same image);
`inferOutput` is the raw buffer returned by `session.Run` (`none` when the
runtime throws). The pipeline: check `argc == 3`, load the model, preprocess,
infer, filter at the hard-coded threshold and `{1, 3, 640, 640}` shape, draw
every detection, write `result.jpg`. Any exception is caught and turns into
exit status 1. -/
def mainModel {Img : Type} (argc : Nat) (modelLoads : Bool)
    (image : Option (Img × Int × Int)) (inferOutput : Option (List Rat))
    (drawOne : Img → Detection → Img) : RunOutcome Img :=
  if argc ≠ 3 then .usage
  else if ¬ modelLoads then .error
  else match image with
    | none => .error
    | some (img, orig_width, orig_height) =>
      match inferOutput with
      | none => .error
      | some results =>
        match filterDetections confidence_threshold
            (input_shape.getD 2 0) (input_shape.getD 3 0)
            orig_width orig_height results with
        | none => .undef
        | some detections => .success detections (render drawOne img detections)

/-- On nonnegative rationals, truncation toward zero is the floor. -/
theorem truncRat_eq_floor (q : Rat) (h : 0 ≤ q) : truncRat q = ⌊q⌋ := by
  have hn : 0 ≤ q.num := Rat.num_nonneg.mpr h
  rw [truncRat, if_pos hn, Rat.floor_def, Int.natCast_div, Int.toNat_of_nonneg hn]

/-- On negative rationals, truncation toward zero is the ceiling. -/
theorem truncRat_eq_ceil (q : Rat) (h : q < 0) : truncRat q = ⌈q⌉ := by
  have hn : ¬ 0 ≤ q.num := by
    rw [Rat.num_nonneg]
    exact not_le.mpr h
  have hn' : 0 ≤ -q.num := by omega
  have hceil : ⌈q⌉ = -⌊-q⌋ := by rw [Int.floor_neg, neg_neg]
  rw [truncRat, if_neg hn, hceil, Rat.floor_def, Rat.neg_num, Rat.neg_den,
    Int.natCast_div, Int.toNat_of_nonneg hn']

/-- A rational at most `-1` truncates to a negative integer (`static_cast`
of a value `≤ -1` is negative). -/
theorem truncRat_neg_of_le (q : Rat) (h : q ≤ -1) : truncRat q < 0 := by
  have hq : q < 0 := lt_of_le_of_lt h (by norm_num)
  rw [truncRat_eq_ceil q hq]
  have h1 : ⌈q⌉ ≤ -1 := Int.ceil_le.mpr (by exact_mod_cast h)
  omega

/-- The index loop of `filterDetections` factors through the record view:
it is exactly the in-order confidence filter of the stride-6 records followed
by the element-wise box rescale and name lookup. -/
theorem filterDetections_eq_detOfRecords (θ : Rat) (iW iH oW oH : Int) (l : List Rat) :
    filterDetections θ iW iH oW oH l =
      detOfRecords iW iH oW oH ((chunks6 l).filter fun r => θ ≤ recConf r) := by
  induction l using chunks6.induct with
  | case1 a b c d e f rest ih =>
    rw [filterDetections, chunks6, List.filter_cons]
    by_cases hc : θ ≤ e
    · rw [if_pos hc]
      have hd : decide (θ ≤ recConf (a, b, c, d, e, f)) = true := by
        simpa [recConf] using hc
      rw [hd, if_pos rfl]
      rcases hcl : classLookup (truncRat f) with _ | nm
      · simp [detOfRecords, mkDetection, hcl]
      · rw [ih]
        rcases hrec : detOfRecords iW iH oW oH
            ((chunks6 rest).filter fun r => θ ≤ recConf r) with _ | ds
        · simp only [detOfRecords, mkDetection, hcl]
          rw [hrec]
        · simp only [detOfRecords, mkDetection, hcl]
          rw [hrec]
          rfl
    · rw [if_neg hc]
      have hd : decide (θ ≤ recConf (a, b, c, d, e, f)) = false := by
        simpa [recConf] using hc
      rw [hd, if_neg (by simp)]
      exact ih
  | case2 t h =>
    rcases t with _ | ⟨a, _ | ⟨b, _ | ⟨c, _ | ⟨d, _ | ⟨e, _ | ⟨f, rest⟩⟩⟩⟩⟩⟩
    · rfl
    · rfl
    · rfl
    · rfl
    · rfl
    · rfl
    · exact absurd rfl (h a b c d e f rest)

/-- `detOfRecords` keeps each record's confidence verbatim, in order. -/
theorem detOfRecords_map_confidence (iW iH oW oH : Int) (rs : List Record)
    (ds : List Detection) (h : detOfRecords iW iH oW oH rs = some ds) :
    ds.map Detection.confidence = rs.map recConf := by
  induction rs generalizing ds with
  | nil =>
    simp only [detOfRecords, Option.some.injEq] at h
    simp [← h]
  | cons r rs ih =>
    rw [detOfRecords] at h
    rcases hm : mkDetection iW iH oW oH r with _ | d <;> rw [hm] at h
    · exact absurd h (by simp)
    rcases hr : detOfRecords iW iH oW oH rs with _ | ds' <;> rw [hr] at h
    · exact absurd h (by simp)
    · simp only [Option.some.injEq] at h
      subst h
      have hconf : d.confidence = recConf r := by
        rw [mkDetection] at hm
        rcases hcl : classLookup (truncRat r.2.2.2.2.2) with _ | nm <;> rw [hcl] at hm
        · exact absurd hm (by simp)
        · simp only [Option.some.injEq] at hm
          rw [← hm]
      simp [hconf, ih ds' hr]

/-- The stride-6 record view ignores the trailing `length % 6` floats:
`chunks6` of the first `6 * (length / 6)` elements is `chunks6` of the whole
buffer. -/
theorem chunks6_take (l : List Rat) :
    chunks6 (l.take (l.length / 6 * 6)) = chunks6 l := by
  induction l using chunks6.induct with
  | case1 a b c d e f rest ih =>
    have hlen : (a :: b :: c :: d :: e :: f :: rest).length / 6 * 6 =
        rest.length / 6 * 6 + 6 := by
      simp only [List.length_cons]
      omega
    rw [hlen]
    have hstep : (a :: b :: c :: d :: e :: f :: rest).take (rest.length / 6 * 6 + 6) =
        a :: b :: c :: d :: e :: f :: rest.take (rest.length / 6 * 6) := by
      simp [List.take_succ_cons]
    rw [hstep, chunks6, chunks6, ih]
  | case2 t h =>
    rcases t with _ | ⟨a, _ | ⟨b, _ | ⟨c, _ | ⟨d, _ | ⟨e, _ | ⟨f, rest⟩⟩⟩⟩⟩⟩
    · simp [chunks6]
    · simp [chunks6]
    · simp [chunks6]
    · simp [chunks6]
    · simp [chunks6]
    · simp [chunks6]
    · exact absurd rfl (h a b c d e f rest)

/-- Evaluation of `filterDetections` on a single kept record whose class
lookup succeeds: exactly the rescaled, truncated box of the source formulas. -/
theorem filterDetections_singleton (left top right bottom conf cls θ : Rat)
    (iW iH oW oH : Int) (nm : String) (hconf : θ ≤ conf)
    (hname : classLookup (truncRat cls) = some nm) :
    filterDetections θ iW iH oW oH [left, top, right, bottom, conf, cls] =
      some [⟨conf,
        ⟨truncRat (left * oW / iW), truncRat (top * oH / iH),
         truncRat ((right - left) * oW / iW), truncRat ((bottom - top) * oH / iH)⟩,
        truncRat cls, nm⟩] := by
  rw [filterDetections, if_pos hconf, hname]
  rfl

/-- A channel plane holds exactly `H*W` values. -/
theorem channelPlane_length (H W : Nat) (img : Nat → Nat → Fin 3 → Nat) (c : Fin 3) :
    (channelPlane H W img c).length = H * W := by
  simp [channelPlane]

/-- Element `y*W + x` of a channel plane is the normalized pixel at row `y`,
column `x`. -/
theorem channelPlane_getElem (H W : Nat) (img : Nat → Nat → Fin 3 → Nat) (c : Fin 3)
    (y x : Nat) (hy : y < H) (hx : x < W) :
    (channelPlane H W img c)[y * W + x]? = some (normalizePixel (img y x c)) := by
  have hW : 0 < W := by omega
  have hlt : y * W + x < H * W := by
    have h2 : (y + 1) * W ≤ H * W := Nat.mul_le_mul_right W (by omega)
    have h3 : (y + 1) * W = y * W + W := by ring
    omega
  have hsplit : y * W + x = x + y * W := by ring
  have hdiv : (x + y * W) / W = y := by
    rw [Nat.add_mul_div_right x y hW, Nat.div_eq_of_lt hx, Nat.zero_add]
  have hmod : (x + y * W) % W = x := by
    rw [Nat.add_mul_mod_self_right, Nat.mod_eq_of_lt hx]
  rw [channelPlane, List.getElem?_map, List.getElem?_range hlt, Option.map_some',
    hsplit, hdiv, hmod]

/-- A channel plane of a uniform image is a uniformly filled plane. -/
theorem channelPlane_const (H W : Nat) (v : Fin 3 → Nat) (c : Fin 3) :
    channelPlane H W (fun _ _ k => v k) c = List.replicate (H * W) (normalizePixel (v c)) := by
  rw [List.eq_replicate_iff]
  refine ⟨by simp [channelPlane], ?_⟩
  intro b hb
  rw [channelPlane, List.mem_map] at hb
  obtain ⟨i, _, hbe⟩ := hb
  exact hbe.symm

/-- Element `c*(H*W) + y*W + x` of the assembled tensor is the normalized
pixel at row `y`, column `x` of channel `c`: channel-major (planar) order. -/
theorem preprocessImage_getElem (H W : Nat) (img : Nat → Nat → Fin 3 → Nat)
    (c : Fin 3) (y x : Nat) (hy : y < H) (hx : x < W) :
    (preprocessImage H W img)[c.val * (H * W) + y * W + x]? =
      some (normalizePixel (img y x c)) := by
  have hyx : y * W + x < H * W := by
    have h2 : (y + 1) * W ≤ H * W := Nat.mul_le_mul_right W (by omega)
    have h3 : (y + 1) * W = y * W + W := by ring
    omega
  have l0 := channelPlane_length H W img 0
  have l1 := channelPlane_length H W img 1
  have l01 : (channelPlane H W img 0 ++ channelPlane H W img 1).length = H * W + (H * W) := by
    rw [List.length_append, l0, l1]
  fin_cases c
  · show (preprocessImage H W img)[0 * (H * W) + y * W + x]? =
      some (normalizePixel (img y x 0))
    have hi : 0 * (H * W) + y * W + x = y * W + x := by ring
    rw [preprocessImage, hi,
      List.getElem?_append_left (by rw [l01]; omega),
      List.getElem?_append_left (by rw [l0]; omega)]
    exact channelPlane_getElem H W img 0 y x hy hx
  · show (preprocessImage H W img)[1 * (H * W) + y * W + x]? =
      some (normalizePixel (img y x 1))
    have hi : 1 * (H * W) + y * W + x = H * W + (y * W + x) := by ring
    rw [preprocessImage, hi,
      List.getElem?_append_left (by rw [l01]; omega),
      List.getElem?_append_right (by rw [l0]; omega), l0]
    have hsub : H * W + (y * W + x) - H * W = y * W + x := by omega
    rw [hsub]
    exact channelPlane_getElem H W img 1 y x hy hx
  · show (preprocessImage H W img)[2 * (H * W) + y * W + x]? =
      some (normalizePixel (img y x 2))
    have hi : 2 * (H * W) + y * W + x = H * W + (H * W) + (y * W + x) := by ring
    rw [preprocessImage, hi,
      List.getElem?_append_right (by rw [l01]; omega), l01]
    have hsub : H * W + (H * W) + (y * W + x) - (H * W + (H * W)) = y * W + x := by omega
    rw [hsub]
    exact channelPlane_getElem H W img 2 y x hy hx

/-- A small concrete image used to instantiate the preprocessing theorem. -/
def imgSample : Nat → Nat → Fin 3 → Nat := fun y x c => y + 2 * x + 3 * c.val

/-- A concrete uniform color used to instantiate the preprocessing theorem. -/
def vSample : Fin 3 → Nat := fun c => 40 * c.val + 17

/-- C1: every Detection returned by `filterDetections` has confidence `≥ θ`
(inclusive), and the returned confidences are exactly the confidences of the
records passing the threshold, so no record with confidence `< θ` produces a
Detection. -/
theorem claim_C1_threshold_filter (results : List Rat) (θ : Rat) (iW iH oW oH : Int)
    (ds : List Detection) (h : filterDetections θ iW iH oW oH results = some ds) :
    (∀ d ∈ ds, θ ≤ d.confidence) ∧
    ds.map Detection.confidence = ((chunks6 results).map recConf).filter fun c => θ ≤ c := by
  have hfac := filterDetections_eq_detOfRecords θ iW iH oW oH results
  rw [h] at hfac
  have hmap := detOfRecords_map_confidence iW iH oW oH _ ds hfac.symm
  have hcomm : ds.map Detection.confidence =
      ((chunks6 results).map recConf).filter fun c => θ ≤ c := by
    rw [hmap, List.filter_map]
    rfl
  refine ⟨?_, hcomm⟩
  intro d hd
  have hmem : d.confidence ∈ ds.map Detection.confidence :=
    List.mem_map_of_mem Detection.confidence hd
  rw [hcomm] at hmem
  have hdec := List.of_mem_filter hmem
  simpa using hdec

/-- C1 witness: a two-record buffer at θ = 3/5 keeps exactly the records with
confidence ≥ 3/5, in order. -/
theorem claim_C1_threshold_filter_witness :
    [⟨1, ⟨0, 0, 0, 0⟩, 0, "person"⟩, ⟨(3:Rat)/5, ⟨0, 0, 0, 0⟩, 1, "bicycle"⟩].map
        Detection.confidence =
      ((chunks6 [0, 0, 0, 0, 1, 0, 0, 0, 0, 0, 1/4, 2, 0, 0, 0, 0, 3/5, 1]).map
        recConf).filter fun c => (3:Rat)/5 ≤ c :=
  (claim_C1_threshold_filter [0, 0, 0, 0, 1, 0, 0, 0, 0, 0, 1/4, 2, 0, 0, 0, 0, 3/5, 1]
    ((3:Rat)/5) 640 640 640 640
    [⟨1, ⟨0, 0, 0, 0⟩, 0, "person"⟩, ⟨(3:Rat)/5, ⟨0, 0, 0, 0⟩, 1, "bicycle"⟩] (by decide)).2

/-- C2: a kept record `(left, top, right, bottom)` is rescaled to
original-image space by independent per-axis linear scaling with truncation
to integers: `x = trunc(left*Wo/Wm)`, `y = trunc(top*Ho/Hm)`,
`width = trunc((right-left)*Wo/Wm)`, `height = trunc((bottom-top)*Ho/Hm)`;
in particular the 1280×720 scenario with record `[320,180,640,360,0.92,0]`
at θ = 0.5 gives exactly one Detection: class 0, confidence 0.92, bbox
`(640, 202, 640, 202)`. -/
theorem claim_C2_box_rescale (left top right bottom conf cls θ : Rat)
    (iW iH oW oH : Int) (nm : String) (hconf : θ ≤ conf)
    (hname : classLookup (truncRat cls) = some nm) :
    filterDetections θ iW iH oW oH [left, top, right, bottom, conf, cls] =
      some [⟨conf,
        ⟨truncRat (left * oW / iW), truncRat (top * oH / iH),
         truncRat ((right - left) * oW / iW), truncRat ((bottom - top) * oH / iH)⟩,
        truncRat cls, nm⟩] ∧
    filterDetections (1/2) 640 640 1280 720 [320, 180, 640, 360, 92/100, 0] =
      some [⟨92/100, ⟨640, 202, 640, 202⟩, 0, "person"⟩] :=
  ⟨filterDetections_singleton left top right bottom conf cls θ iW iH oW oH nm hconf hname,
   by decide⟩

/-- C2 witness: the scaling formulas evaluated at the spec's end-to-end
scenario give bbox `(640, 202, 640, 202)` with `202 = trunc(202.5)`. -/
theorem claim_C2_box_rescale_witness :
    filterDetections (1/2) 640 640 1280 720 [320, 180, 640, 360, 92/100, 0] =
      some [⟨92/100, ⟨640, 202, 640, 202⟩, 0, "person"⟩] := by
  have h := (claim_C2_box_rescale 320 180 640 360 (92/100) 0 (1/2) 640 640 1280 720
    "person" (by decide) (by decide)).1
  rw [h]
  decide

/-- C3 counterexample: a raw buffer of length 7 (`7 % 6 ≠ 0`) does not make
postprocessing fail; `filterDetections` silently keeps the first
`floor(7/6) = 1` record and ignores the trailing float. -/
theorem claim_C3_counterexample :
    ([(0:Rat), 0, 0, 0, 1, 0, 5] : List Rat).length % 6 ≠ 0 ∧
    filterDetections confidence_threshold 640 640 640 640 [0, 0, 0, 0, 1, 0, 5] =
      some [⟨1, ⟨0, 0, 0, 0⟩, 0, "person"⟩] := by
  refine ⟨by decide, by decide⟩

/-- C3 as amended: on a buffer whose length is not a multiple of 6,
`filterDetections` raises no error at all; it behaves exactly as on the
truncated buffer of the first `6 * floor(L/6)` floats, silently ignoring the
trailing `L % 6` floats. -/
theorem claim_C3_silent_truncation (results : List Rat) (θ : Rat) (iW iH oW oH : Int) :
    filterDetections θ iW iH oW oH results =
      filterDetections θ iW iH oW oH (results.take (results.length / 6 * 6)) := by
  rw [filterDetections_eq_detOfRecords, filterDetections_eq_detOfRecords, chunks6_take]

/-- C4: the class-name table has 80 entries and a record with class id 80
does not fail with a ClassIndexError: the code reaches the unchecked
out-of-bounds access `CLASS_NAMES[80]` (undefined behaviour, modelled as the
lookup returning `none` and the run producing no detection list). -/
theorem claim_C4_class_id_out_of_range :
    CLASS_NAMES.length = 80 ∧
    classLookup 80 = none ∧
    classLookup (-1) = none ∧
    filterDetections confidence_threshold 640 640 640 640 [0, 0, 0, 0, 9/10, 80] =
      none := by
  refine ⟨by decide, by decide, by decide, by decide⟩

/-- C5: preprocessing yields a flat sequence of length `3*H*W` in
channel-major (planar) order — element `c*(H*W) + y*W + x` is the resized
pixel at row `y`, column `x`, channel `c`, divided by 255 — and a uniform
image yields three uniformly filled planes. -/
theorem claim_C5_planar_layout (H W : Nat) (img : Nat → Nat → Fin 3 → Nat)
    (c : Fin 3) (y x : Nat) (v : Fin 3 → Nat) (hy : y < H) (hx : x < W) :
    (preprocessImage H W img).length = 3 * (H * W) ∧
    (preprocessImage H W img)[c.val * (H * W) + y * W + x]? =
      some (normalizePixel (img y x c)) ∧
    preprocessImage H W (fun _ _ k => v k) =
      List.replicate (H * W) (normalizePixel (v 0)) ++
      List.replicate (H * W) (normalizePixel (v 1)) ++
      List.replicate (H * W) (normalizePixel (v 2)) := by
  refine ⟨?_, ?_, ?_⟩
  · simp [preprocessImage, channelPlane_length]
    ring
  · exact preprocessImage_getElem H W img c y x hy hx
  · rw [preprocessImage, channelPlane_const, channelPlane_const, channelPlane_const]

/-- C5 witness: the planar layout at a concrete 2×3 image, channel 1, pixel
(1, 2), and a concrete uniform color. -/
theorem claim_C5_planar_layout_witness :
    (preprocessImage 2 3 imgSample).length = 3 * (2 * 3) ∧
    (preprocessImage 2 3 imgSample)[(1 : Fin 3).val * (2 * 3) + 1 * 3 + 2]? =
      some (normalizePixel (imgSample 1 2 1)) ∧
    preprocessImage 2 3 (fun _ _ k => vSample k) =
      List.replicate (2 * 3) (normalizePixel (vSample 0)) ++
      List.replicate (2 * 3) (normalizePixel (vSample 1)) ++
      List.replicate (2 * 3) (normalizePixel (vSample 2)) :=
  claim_C5_planar_layout 2 3 imgSample 1 1 2 vSample (by decide) (by decide)

/-- C6: the Detections returned by `filterDetections` appear in the same
relative order as their records in the raw buffer: the output is the
element-wise image of the in-order sublist of records passing the threshold,
with no re-sorting. -/
theorem claim_C6_order_preserved (results : List Rat) (θ : Rat) (iW iH oW oH : Int) :
    ((chunks6 results).filter fun r => θ ≤ recConf r).Sublist (chunks6 results) ∧
    filterDetections θ iW iH oW oH results =
      detOfRecords iW iH oW oH ((chunks6 results).filter fun r => θ ≤ recConf r) :=
  ⟨List.filter_sublist _, filterDetections_eq_detOfRecords θ iW iH oW oH results⟩

/-- C7: an empty raw buffer yields an empty Detection sequence and the run
completes with exit status 0, writing the unannotated original image. -/
theorem claim_C7_empty_buffer (Img : Type) (img : Img) (oW oH : Int)
    (draw : Img → Detection → Img) :
    filterDetections confidence_threshold 640 640 oW oH [] = some [] ∧
    mainModel 3 true (some (img, oW, oH)) (some []) draw = .success [] img ∧
    exitCode (mainModel 3 true (some (img, oW, oH)) (some []) draw) = some 0 :=
  ⟨rfl, rfl, rfl⟩

/-- C8: with an argument count other than 3 (program name plus two
positional arguments), `main` prints usage and exits with status 1 without
doing any other work, whatever the rest of the world looks like. -/
theorem claim_C8_usage (Img : Type) (argc : Nat) (modelLoads : Bool)
    (image : Option (Img × Int × Int)) (inferOutput : Option (List Rat))
    (draw : Img → Detection → Img) (h : argc ≠ 3) :
    mainModel argc modelLoads image inferOutput draw = .usage ∧
    exitCode (mainModel argc modelLoads image inferOutput draw) = some 1 := by
  rw [mainModel.eq_def, if_pos h]
  exact ⟨rfl, rfl⟩

/-- C8 witness: one argument (argc = 1) gives the usage outcome. -/
theorem claim_C8_usage_witness :
    mainModel 1 true (none : Option (Unit × Int × Int)) none (fun u _ => u) = .usage :=
  (claim_C8_usage Unit 1 true none none (fun u _ => u) (by decide)).1

/-- C9 counterexample: a record with `right < left` does not always yield a
negative width: with `left = 1/2, right = 0` the scaled width is `-1/2`,
which `static_cast<int>` truncates toward zero to `0`, not to a negative
value. -/
theorem claim_C9_counterexample :
    filterDetections confidence_threshold 640 640 640 640 [1/2, 0, 0, 0, 1, 0] =
      some [⟨1, ⟨0, 0, 0, 0⟩, 0, "person"⟩] := by decide

/-- C9 as amended: `filterDetections` clamps and validates nothing — the kept
record's bbox is exactly the scaling formulas, whatever their signs or
magnitudes — and a record whose scaled width `(right-left)*Wo/Wm` is at most
`-1` yields a Detection with strictly negative width (records with
`right < left` but scaled width in `(-1, 0]` yield width 0 by truncation
toward zero). -/
theorem claim_C9_no_clamping (left top right bottom conf cls θ : Rat)
    (iW iH oW oH : Int) (nm : String) (hconf : θ ≤ conf)
    (hname : classLookup (truncRat cls) = some nm)
    (hneg : (right - left) * oW / iW ≤ -1) :
    filterDetections θ iW iH oW oH [left, top, right, bottom, conf, cls] =
      some [⟨conf,
        ⟨truncRat (left * oW / iW), truncRat (top * oH / iH),
         truncRat ((right - left) * oW / iW), truncRat ((bottom - top) * oH / iH)⟩,
        truncRat cls, nm⟩] ∧
    truncRat ((right - left) * oW / iW) < 0 :=
  ⟨filterDetections_singleton left top right bottom conf cls θ iW iH oW oH nm hconf hname,
   truncRat_neg_of_le _ hneg⟩

/-- C9 witness: the record `[0, 0, -1, 0, 1, 0]` at scale 1 yields a
Detection with width `-1` and no error. -/
theorem claim_C9_no_clamping_witness :
    filterDetections 0 640 640 640 640 [0, 0, -1, 0, 1, 0] =
      some [⟨1, ⟨0, 0, -1, 0⟩, 0, "person"⟩] := by
  have h := claim_C9_no_clamping 0 0 (-1) 0 1 0 0 640 640 640 640 "person"
    (by decide) (by decide) (by decide)
  rw [h.1]
  decide

/-- C10: the threshold and the model input shape are hard-coded constants
(`0.5` and `{1, 3, 640, 640}`): every run that reaches filtering filters with
exactly θ = 1/2 and model spatial size 640×640, with no input to `main`
able to change them. -/
theorem claim_C10_fixed_config (Img : Type) (img : Img) (oW oH : Int)
    (results : List Rat) (draw : Img → Detection → Img) (ds : List Detection) (w : Img)
    (h : mainModel 3 true (some (img, oW, oH)) (some results) draw = .success ds w) :
    confidence_threshold = 1/2 ∧ input_shape = [1, 3, 640, 640] ∧
    filterDetections (1/2) 640 640 oW oH results = some ds := by
  refine ⟨rfl, rfl, ?_⟩
  have h' : (match filterDetections confidence_threshold 640 640 oW oH results with
      | none => (RunOutcome.undef : RunOutcome Img)
      | some detections => .success detections (render draw img detections)) =
        .success ds w := h
  rcases hf : filterDetections confidence_threshold 640 640 oW oH results
      with _ | ds' <;> rw [hf] at h'
  · exact absurd h' (by simp)
  · simp only [RunOutcome.success.injEq] at h'
    rw [← h'.1]
    exact hf

/-- C10 witness: a trivial successful run filters with θ = 1/2 and 640×640. -/
theorem claim_C10_fixed_config_witness :
    confidence_threshold = 1/2 ∧ input_shape = [1, 3, 640, 640] ∧
    filterDetections (1/2) 640 640 640 640 [] = some [] :=
  claim_C10_fixed_config Unit () 640 640 [] (fun u _ => u) [] () rfl

end Yolo
